import Mathlib

/-
Verification development for the lithophoto lithophane generator
(src/main.rs).  The program converts a raster image into a triangulated
solid and serialises it as a binary STL file.

Embedding conventions:
* Rust `f32` arithmetic is modelled by exact rational arithmetic (`ℚ`);
  the decimal literals of the source (0.299, 0.587, 0.114) are the exact
  rationals 299/1000, 587/1000, 114/1000.
* `u8` channel values are modelled by `Fin 256`, `u32` dimensions by `ℕ`.
* The `DynamicImage` collaborator is modelled by the `Image` record:
  dimensions plus a total pixel lookup (the source only reads pixels at
  in-range coordinates).
* The source materialises the height field as row vectors
  (`thickness[y][x]`); since every access is in bounds, the grid is
  embedded as the function `get_thickness_vec3 _ _ _ _ x y`, which is
  exactly the value the source stores at row `y`, column `x`.
* The byte sink of `generate_stl_mesh` is modelled by the list of bytes
  written, in write order; `f32::to_le_bytes` is modelled by an exact
  IEEE-754 binary32 round-to-nearest-even encoder on `ℚ`.
-/

/-- `struct Vec3 { x: f32, y: f32, z: f32 }` with `f32` modelled as `ℚ`. -/
structure Vec3 where
  x : ℚ
  y : ℚ
  z : ℚ
deriving DecidableEq

/-- `struct Triangle { normal: Vec3, v0: Vec3, v1: Vec3, v2: Vec3 }`. -/
structure Triangle where
  normal : Vec3
  v0 : Vec3
  v1 : Vec3
  v2 : Vec3
deriving DecidableEq

/-- `type Mesh = Vec<Triangle>`. -/
abbrev Mesh := List Triangle

/-- The image collaborator: `img.dimensions()` and `img.get_pixel(x, y)`
(only the first three channels of the returned pixel are read). -/
structure Image where
  width : ℕ
  height : ℕ
  pixel : ℕ → ℕ → Fin 256 × Fin 256 × Fin 256

/-- `get_pixel_brightness` from src/main.rs:
`((r as f32 * 0.299) + (g as f32 * 0.587) + (b as f32 * 0.114)) / 255.0`. -/
def get_pixel_brightness (r g b : Fin 256) : ℚ :=
  ((r.val : ℚ) * 0.299 + (g.val : ℚ) * 0.587 + (b.val : ℚ) * 0.114) / 255

/-- The closure `brightness_to_mm` in `image_to_mesh`:
`mesh_thickness - (brightness * contrast * mesh_thickness)`. -/
def brightness_to_mm (mesh_thickness contrast brightness : ℚ) : ℚ :=
  mesh_thickness - brightness * contrast * mesh_thickness

/-- The closure `pixel_coord_to_mm` in `image_to_mesh`:
`val as f32 * mesh_width / (width as f32)`. -/
def pixel_coord_to_mm (mesh_width : ℚ) (width : ℕ) (val : ℕ) : ℚ :=
  (val : ℚ) * mesh_width / (width : ℚ)

/-- The closure `get_thickness_vec3` in `image_to_mesh`: samples the pixel at
raster row `height - y - 1` (vertical flip) and builds the height-field
point for column `x`, field row `y`. -/
def get_thickness_vec3 (img : Image) (mesh_width mesh_thickness contrast : ℚ)
    (x y : ℕ) : Vec3 :=
  let p := img.pixel x (img.height - y - 1)
  let b := get_pixel_brightness p.1 p.2.1 p.2.2
  ⟨pixel_coord_to_mm mesh_width img.width x,
   pixel_coord_to_mm mesh_width img.width y,
   brightness_to_mm mesh_thickness contrast b⟩

/-- The closure `normal` in `image_to_mesh`: the cross product
`(v1 - v0) × (v2 - v0)`, component by component as written in the source. -/
def normal (v0 v1 v2 : Vec3) : Vec3 :=
  ⟨(v1.y - v0.y) * (v2.z - v0.z) - (v1.z - v0.z) * (v2.y - v0.y),
   (v1.z - v0.z) * (v2.x - v0.x) - (v1.x - v0.x) * (v2.z - v0.z),
   (v1.x - v0.x) * (v2.y - v0.y) - (v1.y - v0.y) * (v2.x - v0.x)⟩

/-- The closure `add_quad`: pushes triangles `(v0,v1,v2)` and `(v0,v2,v3)`,
both carrying the computed normal of `(v0,v1,v2)`. -/
def add_quad (v0 v1 v2 v3 : Vec3) : List Triangle :=
  [⟨normal v0 v1 v2, v0, v1, v2⟩, ⟨normal v0 v1 v2, v0, v2, v3⟩]

/-- The closure `add_quad_with_normal`: pushes triangles `(v0,v1,v2)` and
`(v0,v2,v3)` carrying the supplied fixed normal `n`. -/
def add_quad_with_normal (v0 v1 v2 v3 n : Vec3) : List Triangle :=
  [⟨n, v0, v1, v2⟩, ⟨n, v0, v2, v3⟩]

/-- Front relief face: for `y in 0..height-1`, `x in 0..width-1`,
`add_quad(thickness[y][x], thickness[y][x+1], thickness[y+1][x+1],
thickness[y+1][x])`. -/
def frontTriangles (img : Image) (mesh_width mesh_thickness contrast : ℚ) : Mesh :=
  (List.range (img.height - 1)).flatMap fun y =>
    (List.range (img.width - 1)).flatMap fun x =>
      add_quad (get_thickness_vec3 img mesh_width mesh_thickness contrast x y)
        (get_thickness_vec3 img mesh_width mesh_thickness contrast (x + 1) y)
        (get_thickness_vec3 img mesh_width mesh_thickness contrast (x + 1) (y + 1))
        (get_thickness_vec3 img mesh_width mesh_thickness contrast x (y + 1))

/-- Back face: one quad over the footprint at `z = 0` with fixed normal
`(0, 0, -1)` (the `add_quad_with_normal` call under `// Create back face`). -/
def backTriangles (img : Image) (mesh_width : ℚ) : Mesh :=
  add_quad_with_normal
    ⟨0, 0, 0⟩
    ⟨pixel_coord_to_mm mesh_width img.width (img.width - 1), 0, 0⟩
    ⟨pixel_coord_to_mm mesh_width img.width (img.width - 1),
     pixel_coord_to_mm mesh_width img.width (img.height - 1), 0⟩
    ⟨0, pixel_coord_to_mm mesh_width img.width (img.height - 1), 0⟩
    ⟨0, 0, -1⟩

/-- The loop commented `// Create left and right faces` in the source: for
`x in 0..width-1` it walls the field rows `0` and `height-1` (the edges at
y = 0 and y = H-1 in millimetre space) down to the back plane, with fixed
normals `(-1,0,0)` and `(1,0,0)`.  `a0 = thickness[0][x]`,
`a1 = thickness[0][x+1]`, `b0 = thickness[height-1][x+1]`,
`b1 = thickness[height-1][x]`; `a2/a3/b2/b3` are their `z = 0` projections;
quads are pushed as `(a0, a1, a3, a2)` and `(b0, b1, b3, b2)`. -/
def lrWallTriangles (img : Image) (mesh_width mesh_thickness contrast : ℚ) : Mesh :=
  (List.range (img.width - 1)).flatMap fun x =>
    let a0 := get_thickness_vec3 img mesh_width mesh_thickness contrast x 0
    let a1 := get_thickness_vec3 img mesh_width mesh_thickness contrast (x + 1) 0
    let a2 : Vec3 := ⟨a0.x, a0.y, 0⟩
    let a3 : Vec3 := ⟨a1.x, a1.y, 0⟩
    let b0 := get_thickness_vec3 img mesh_width mesh_thickness contrast (x + 1) (img.height - 1)
    let b1 := get_thickness_vec3 img mesh_width mesh_thickness contrast x (img.height - 1)
    let b2 : Vec3 := ⟨b0.x, b0.y, 0⟩
    let b3 : Vec3 := ⟨b1.x, b1.y, 0⟩
    add_quad_with_normal a0 a1 a3 a2 ⟨-1, 0, 0⟩ ++
      add_quad_with_normal b0 b1 b3 b2 ⟨1, 0, 0⟩

/-- The loop commented `// Create top and bottom faces` in the source: for
`y in 0..height-1` it walls the field columns `0` and `width-1` (the edges
at x = 0 and x = W-1 in millimetre space) down to the back plane, with
fixed normals `(0,-1,0)` and `(0,1,0)`.  `a0 = thickness[y][0]`,
`a1 = thickness[y+1][0]`, `b0 = thickness[y][width-1]`,
`b1 = thickness[y+1][width-1]`. -/
def tbWallTriangles (img : Image) (mesh_width mesh_thickness contrast : ℚ) : Mesh :=
  (List.range (img.height - 1)).flatMap fun y =>
    let a0 := get_thickness_vec3 img mesh_width mesh_thickness contrast 0 y
    let a1 := get_thickness_vec3 img mesh_width mesh_thickness contrast 0 (y + 1)
    let a2 : Vec3 := ⟨a0.x, a0.y, 0⟩
    let a3 : Vec3 := ⟨a1.x, a1.y, 0⟩
    let b0 := get_thickness_vec3 img mesh_width mesh_thickness contrast (img.width - 1) y
    let b1 := get_thickness_vec3 img mesh_width mesh_thickness contrast (img.width - 1) (y + 1)
    let b2 : Vec3 := ⟨b0.x, b0.y, 0⟩
    let b3 : Vec3 := ⟨b1.x, b1.y, 0⟩
    add_quad_with_normal a0 a1 a3 a2 ⟨0, -1, 0⟩ ++
      add_quad_with_normal b0 b1 b3 b2 ⟨0, 1, 0⟩

/-- `image_to_mesh` from src/main.rs: front relief quads, then the back
face, then the two wall loops, in the push order of the source. -/
def image_to_mesh (img : Image) (mesh_width mesh_thickness contrast : ℚ) : Mesh :=
  frontTriangles img mesh_width mesh_thickness contrast ++
    backTriangles img mesh_width ++
    lrWallTriangles img mesh_width mesh_thickness contrast ++
    tbWallTriangles img mesh_width mesh_thickness contrast

/-- Round a rational to the nearest integer, ties to even (the rounding
mode of IEEE-754 used by Rust `f32` arithmetic and conversions). -/
def roundHalfEven (q : ℚ) : ℤ :=
  let n := ⌊q⌋
  let f := q - n
  if f < 1 / 2 then n
  else if 1 / 2 < f then n + 1
  else if n % 2 = 0 then n else n + 1

/-- The IEEE-754 binary32 bit pattern of a rational, as a natural number
(sign bit 31, biased exponent bits 30..23, mantissa bits 22..0; rounds to
nearest, ties to even; overflows to infinity, underflows to subnormals).
Models the bit pattern of the `f32` a rational value denotes. -/
def f32bits (q : ℚ) : ℕ :=
  if q = 0 then 0
  else
    let s : ℕ := if q < 0 then 2 ^ 31 else 0
    let a := |q|
    let e : ℤ := max (Int.log 2 a) (-126)
    let m : ℤ := roundHalfEven (a * (2 : ℚ) ^ (23 - e))
    let mE : ℤ × ℤ := if m = 2 ^ 24 then (2 ^ 23, e + 1) else (m, e)
    if mE.2 > 127 then s + 255 * 2 ^ 23
    else if mE.1 < 2 ^ 23 then s + mE.1.toNat
    else s + (mE.2 + 127).toNat * 2 ^ 23 + (mE.1 - 2 ^ 23).toNat

/-- The four little-endian bytes of a 32-bit value (`to_le_bytes`). -/
def leBytes4 (n : ℕ) : List ℕ :=
  [n % 256, n / 256 % 256, n / 65536 % 256, n / 16777216 % 256]

/-- `f32::to_le_bytes`: the four little-endian bytes of the binary32
representation. -/
def f32le (q : ℚ) : List ℕ :=
  leBytes4 (f32bits q)

/-- `Vec3::to_le_bytes` from src/main.rs: 12 bytes, `x` then `y` then `z`,
each as 4 little-endian `f32` bytes. -/
def vec3le (v : Vec3) : List ℕ :=
  f32le v.x ++ f32le v.y ++ f32le v.z

/-- The bytes written for one triangle inside the loop of
`generate_stl_mesh`: normal, `v0`, `v1`, `v2` (12 bytes each), then the
two zero attribute-count bytes. -/
def triRecord (t : Triangle) : List ℕ :=
  vec3le t.normal ++ vec3le t.v0 ++ vec3le t.v1 ++ vec3le t.v2 ++ [0, 0]

/-- `generate_stl_mesh` from src/main.rs, as the byte sequence written to
the sink: eighty single zero bytes, the triangle count (`m.len() as u32`,
hence reduced modulo 2^32) in little-endian, then one 50-byte record per
triangle in mesh order. -/
def generate_stl_mesh (m : Mesh) : List ℕ :=
  List.replicate 80 0 ++ leBytes4 (m.length % 2 ^ 32) ++ m.flatMap triRecord

/-- Number of triangles of a mesh that contain the ordered vertex pair
`(a, b)` as one of their three directed edges `v0→v1`, `v1→v2`, `v2→v0`. -/
def edgeCount (m : Mesh) (a b : Vec3) : ℕ :=
  m.countP fun t =>
    decide ((t.v0 = a ∧ t.v1 = b) ∨ (t.v1 = a ∧ t.v2 = b) ∨ (t.v2 = a ∧ t.v0 = b))

/-- A concrete 2×2 all-black test image. -/
def img2 : Image :=
  ⟨2, 2, fun _ _ => (0, 0, 0)⟩

/-- A concrete 1×5 all-black test image (width below the meshing minimum). -/
def img15 : Image :=
  ⟨1, 5, fun _ _ => (0, 0, 0)⟩

theorem flatMap_length_const {α β : Type} (l : List α) (f : α → List β) (k : ℕ)
    (h : ∀ a, (f a).length = k) : (l.flatMap f).length = l.length * k := by
  induction l with
  | nil => simp
  | cons a t ih =>
      rw [List.flatMap_cons, List.length_append, h, ih, List.length_cons,
        Nat.succ_mul, Nat.add_comm]

theorem triRecord_length (t : Triangle) : (triRecord t).length = 50 := rfl

theorem generate_stl_mesh_length (m : Mesh) :
    (generate_stl_mesh m).length = 84 + 50 * m.length := by
  unfold generate_stl_mesh
  rw [List.length_append, List.length_append,
    flatMap_length_const _ _ 50 triRecord_length]
  simp [leBytes4]
  omega

theorem drop_append_length {α : Type} (l₁ l₂ : List α) (n : ℕ) :
    (l₁ ++ l₂).drop (l₁.length + n) = l₂.drop n := by
  rw [← List.drop_drop, List.drop_left]

theorem flatMap_triRecord_drop :
    ∀ (m : Mesh) (i : ℕ) (hi : i < m.length),
      (m.flatMap triRecord).drop (50 * i) =
        triRecord (m.get ⟨i, hi⟩) ++ (m.drop (i + 1)).flatMap triRecord := by
  intro m
  induction m with
  | nil => intro i hi; exact absurd hi (Nat.not_lt_zero i)
  | cons a t ih =>
      intro i hi
      cases i with
      | zero => simp [List.flatMap_cons]
      | succ j =>
          have hj : j < t.length := Nat.lt_of_succ_lt_succ hi
          have h50 : 50 * (j + 1) = (triRecord a).length + 50 * j := by
            rw [triRecord_length]; omega
          rw [List.flatMap_cons, h50, drop_append_length, ih j hj]
          simp

theorem fin256_cast_le (r : Fin 256) : (r.val : ℚ) ≤ 255 := by
  have h : r.val ≤ 255 := by omega
  exact_mod_cast h

theorem gb_nonneg (r g b : Fin 256) : 0 ≤ get_pixel_brightness r g b := by
  unfold get_pixel_brightness
  positivity

theorem gb_le_one (r g b : Fin 256) : get_pixel_brightness r g b ≤ 1 := by
  unfold get_pixel_brightness
  rw [div_le_one (by norm_num : (0 : ℚ) < 255)]
  have hr := fin256_cast_le r
  have hg := fin256_cast_le g
  have hb := fin256_cast_le b
  linarith

theorem brightness_to_mm_bound (mt c b : ℚ) (hb0 : 0 ≤ b) (hb1 : b ≤ 1)
    (hc0 : 0 ≤ c) (hc1 : c ≤ 1) (ht : 0 ≤ mt) :
    0 ≤ brightness_to_mm mt c b ∧ brightness_to_mm mt c b ≤ mt := by
  unfold brightness_to_mm
  have h1 : b * c ≤ c := mul_le_of_le_one_left hc0 hb1
  have h2 : b * c * mt ≤ mt := mul_le_of_le_one_left ht (le_trans h1 hc1)
  have h3 : 0 ≤ b * c * mt := mul_nonneg (mul_nonneg hb0 hc0) ht
  constructor
  · linarith
  · linarith

theorem get_thickness_z (img : Image) (mw mt c : ℚ) (x y : ℕ) :
    (get_thickness_vec3 img mw mt c x y).z =
      brightness_to_mm mt c
        (get_pixel_brightness (img.pixel x (img.height - y - 1)).1
          (img.pixel x (img.height - y - 1)).2.1
          (img.pixel x (img.height - y - 1)).2.2) := rfl

theorem get_thickness_z_bound (img : Image) (mw mt c : ℚ) (x y : ℕ)
    (hc0 : 0 ≤ c) (hc1 : c ≤ 1) (ht : 0 ≤ mt) :
    0 ≤ (get_thickness_vec3 img mw mt c x y).z ∧
      (get_thickness_vec3 img mw mt c x y).z ≤ mt := by
  rw [get_thickness_z]
  exact brightness_to_mm_bound _ _ _ (gb_nonneg _ _ _) (gb_le_one _ _ _) hc0 hc1 ht

theorem frontTriangles_length (img : Image) (mw mt c : ℚ) :
    (frontTriangles img mw mt c).length = (img.height - 1) * ((img.width - 1) * 2) := by
  unfold frontTriangles
  refine Eq.trans (flatMap_length_const _ _ ((img.width - 1) * 2) fun y => ?_) ?_
  · refine Eq.trans (flatMap_length_const _ _ 2 fun x => ?_) ?_
    · rfl
    · simp
  · simp

theorem lrWallTriangles_length (img : Image) (mw mt c : ℚ) :
    (lrWallTriangles img mw mt c).length = (img.width - 1) * 4 := by
  unfold lrWallTriangles
  refine Eq.trans (flatMap_length_const _ _ 4 fun x => ?_) ?_
  · rfl
  · simp

theorem tbWallTriangles_length (img : Image) (mw mt c : ℚ) :
    (tbWallTriangles img mw mt c).length = (img.height - 1) * 4 := by
  unfold tbWallTriangles
  refine Eq.trans (flatMap_length_const _ _ 4 fun y => ?_) ?_
  · rfl
  · simp

/-- C2: for every input image with width W >= 2 and height H >= 2, the mesh
returned by image_to_mesh contains exactly
2*(W-1)*(H-1) + 2 + 4*(W-1) + 4*(H-1) triangles. -/
theorem C2_triangle_count (img : Image) (mw mt c : ℚ)
    (hW : 2 ≤ img.width) (hH : 2 ≤ img.height) :
    (image_to_mesh img mw mt c).length =
      2 * (img.width - 1) * (img.height - 1) + 2 +
        4 * (img.width - 1) + 4 * (img.height - 1) := by
  unfold image_to_mesh
  rw [List.length_append, List.length_append, List.length_append,
    frontTriangles_length, lrWallTriangles_length, tbWallTriangles_length]
  have hback : (backTriangles img mw).length = 2 := rfl
  rw [hback]
  ring

/-- Witness for C2 at a concrete 2×2 image: the mesh has 12 triangles. -/
theorem C2_triangle_count_witness :
    2 ≤ img2.width ∧ 2 ≤ img2.height ∧
      (image_to_mesh img2 2 1 0).length =
        2 * (img2.width - 1) * (img2.height - 1) + 2 +
          4 * (img2.width - 1) + 4 * (img2.height - 1) :=
  ⟨by decide, by decide, C2_triangle_count img2 2 1 0 (by decide) (by decide)⟩

/-- C5: for every pixel the front-face relief depth is
z = thickness - brightness * contrast * thickness; at contrast = 0 every
front-face vertex has z = thickness; at contrast = 1 a (255,255,255) pixel
maps to z = 0 and a (0,0,0) pixel maps to z = thickness. -/
theorem C5_depth_mapping (img : Image) (mw mt c : ℚ) (x y : ℕ) :
    (get_thickness_vec3 img mw mt c x y).z =
        mt - get_pixel_brightness (img.pixel x (img.height - y - 1)).1
              (img.pixel x (img.height - y - 1)).2.1
              (img.pixel x (img.height - y - 1)).2.2 * c * mt
    ∧ (get_thickness_vec3 img mw mt 0 x y).z = mt
    ∧ brightness_to_mm mt 1 (get_pixel_brightness 255 255 255) = 0
    ∧ brightness_to_mm mt 1 (get_pixel_brightness 0 0 0) = mt := by
  refine ⟨rfl, ?_, ?_, ?_⟩
  · rw [get_thickness_z]
    unfold brightness_to_mm
    ring
  · have h : ((255 : Fin 256)).val = 255 := rfl
    unfold brightness_to_mm get_pixel_brightness
    rw [h]
    norm_num
  · have h : ((0 : Fin 256)).val = 0 := rfl
    unfold brightness_to_mm get_pixel_brightness
    rw [h]
    norm_num

/-- C6: get_pixel_brightness returns (0.299*r + 0.587*g + 0.114*b)/255,
which lies in [0,1]; it is 0 at (0,0,0), exactly 1 at (255,255,255) in the
exact-rational model of f32, and monotone non-decreasing in each channel. -/
theorem C6_brightness (r g b r2 g2 b2 : Fin 256)
    (hr : r ≤ r2) (hg : g ≤ g2) (hb : b ≤ b2) :
    get_pixel_brightness r g b =
        (0.299 * (r.val : ℚ) + 0.587 * (g.val : ℚ) + 0.114 * (b.val : ℚ)) / 255
    ∧ 0 ≤ get_pixel_brightness r g b
    ∧ get_pixel_brightness r g b ≤ 1
    ∧ get_pixel_brightness 0 0 0 = 0
    ∧ get_pixel_brightness 255 255 255 = 1
    ∧ get_pixel_brightness r g b ≤ get_pixel_brightness r2 g2 b2 := by
  refine ⟨by unfold get_pixel_brightness; ring, gb_nonneg r g b, gb_le_one r g b,
    ?_, ?_, ?_⟩
  · have h : ((0 : Fin 256)).val = 0 := rfl
    unfold get_pixel_brightness
    rw [h]
    norm_num
  · have h : ((255 : Fin 256)).val = 255 := rfl
    unfold get_pixel_brightness
    rw [h]
    norm_num
  · have hr2 : (r.val : ℚ) ≤ (r2.val : ℚ) := by exact_mod_cast hr
    have hg2 : (g.val : ℚ) ≤ (g2.val : ℚ) := by exact_mod_cast hg
    have hb2 : (b.val : ℚ) ≤ (b2.val : ℚ) := by exact_mod_cast hb
    unfold get_pixel_brightness
    have h255 : (0 : ℚ) < 255 := by norm_num
    rw [div_le_div_iff_of_pos_right h255]
    linarith

/-- Witness for C6: instantiated at (0,0,0) ≤ (255,255,255). -/
theorem C6_brightness_witness :
    get_pixel_brightness 0 0 0 ≤ get_pixel_brightness 255 255 255 :=
  (C6_brightness 0 0 0 255 255 255 (by decide) (by decide) (by decide)).2.2.2.2.2

/-- C7: for every mesh of n triangles (n < 2^32, the `as u32` domain),
generate_stl_mesh writes exactly 80 zero header bytes, then n as 4
little-endian bytes, then per triangle in mesh order 12 normal bytes, 36
vertex bytes and 2 zero attribute bytes (50 bytes each); the total output
length is exactly 84 + 50*n bytes. -/
theorem C7_stl_layout (m : Mesh) (h : m.length < 2 ^ 32) :
    (generate_stl_mesh m).length = 84 + 50 * m.length
    ∧ (generate_stl_mesh m).take 80 = List.replicate 80 0
    ∧ ((generate_stl_mesh m).drop 80).take 4 = leBytes4 m.length
    ∧ ∀ i (hi : i < m.length),
        ((generate_stl_mesh m).drop (84 + 50 * i)).take 50 =
          vec3le (m.get ⟨i, hi⟩).normal ++ vec3le (m.get ⟨i, hi⟩).v0 ++
            vec3le (m.get ⟨i, hi⟩).v1 ++ vec3le (m.get ⟨i, hi⟩).v2 ++ [0, 0] := by
  have hmod : m.length % 2 ^ 32 = m.length := Nat.mod_eq_of_lt h
  refine ⟨generate_stl_mesh_length m, ?_, ?_, ?_⟩
  · unfold generate_stl_mesh
    rw [List.append_assoc]
    exact List.take_left' (by simp)
  · unfold generate_stl_mesh
    rw [List.append_assoc, List.drop_left' (List.length_replicate 80 0), hmod]
    exact List.take_left' rfl
  · intro i hi
    have hlen : (List.replicate 80 (0 : ℕ) ++ leBytes4 (m.length % 2 ^ 32)).length = 84 := by
      simp [leBytes4]
    have hdrop : (generate_stl_mesh m).drop (84 + 50 * i) =
        (m.flatMap triRecord).drop (50 * i) := by
      unfold generate_stl_mesh
      rw [← hlen, drop_append_length]
    rw [hdrop, flatMap_triRecord_drop m i hi]
    exact List.take_left' (triRecord_length _)

/-- A one-triangle mesh used to instantiate the encoder layout theorem. -/
def triZero : Triangle :=
  ⟨⟨0, 0, 0⟩, ⟨0, 0, 0⟩, ⟨0, 0, 0⟩, ⟨0, 0, 0⟩⟩

/-- Witness for C7 at a concrete one-triangle mesh: 134 bytes total. -/
theorem C7_stl_layout_witness :
    [triZero].length < 2 ^ 32 ∧
      (generate_stl_mesh [triZero]).length = 84 + 50 * [triZero].length :=
  ⟨by norm_num, (C7_stl_layout [triZero] (by norm_num)).1⟩

/-- C1 (refuting evaluation): on the 2×2 all-black image with
mesh_width = 2, thickness = 1, contrast = 0, the directed edge from
(0,0,1) to (1,0,1) occurs in two triangles of the mesh (the first front
triangle and the first wall triangle of the loop labelled left/right),
while its reverse occurs in none — so the mesh produced by image_to_mesh
is not watertight in the directed-edge sense of the claim. -/
theorem C1_directed_edges_not_unique :
    edgeCount (image_to_mesh img2 2 1 0) ⟨0, 0, 1⟩ ⟨1, 0, 1⟩ = 2
    ∧ edgeCount (image_to_mesh img2 2 1 0) ⟨1, 0, 1⟩ ⟨0, 0, 1⟩ = 0 := by
  constructor
  · with_unfolding_all decide
  · with_unfolding_all decide

/-- C3 (refuting evaluation): on the 2×2 all-black image with
mesh_width = 2, thickness = 1, contrast = 0, the wall triangles whose
vertices all lie at x = 0 (connecting the relief edge at x = 0, z = 1 to
the back plane z = 0) carry the fixed normal (0,-1,0), and the walls at
y = 0 carry (-1,0,0): the two wall families have their normals swapped
relative to the claim. -/
theorem C3_wall_normals_swapped :
    tbWallTriangles img2 2 1 0 =
      [⟨⟨0, -1, 0⟩, ⟨0, 0, 1⟩, ⟨0, 1, 1⟩, ⟨0, 1, 0⟩⟩,
       ⟨⟨0, -1, 0⟩, ⟨0, 0, 1⟩, ⟨0, 1, 0⟩, ⟨0, 0, 0⟩⟩,
       ⟨⟨0, 1, 0⟩, ⟨1, 0, 1⟩, ⟨1, 1, 1⟩, ⟨1, 1, 0⟩⟩,
       ⟨⟨0, 1, 0⟩, ⟨1, 0, 1⟩, ⟨1, 1, 0⟩, ⟨1, 0, 0⟩⟩]
    ∧ lrWallTriangles img2 2 1 0 =
      [⟨⟨-1, 0, 0⟩, ⟨0, 0, 1⟩, ⟨1, 0, 1⟩, ⟨1, 0, 0⟩⟩,
       ⟨⟨-1, 0, 0⟩, ⟨0, 0, 1⟩, ⟨1, 0, 0⟩, ⟨0, 0, 0⟩⟩,
       ⟨⟨1, 0, 0⟩, ⟨1, 1, 1⟩, ⟨0, 1, 1⟩, ⟨0, 1, 0⟩⟩,
       ⟨⟨1, 0, 0⟩, ⟨1, 1, 1⟩, ⟨0, 1, 0⟩, ⟨1, 1, 0⟩⟩] := by
  constructor
  · with_unfolding_all decide
  · with_unfolding_all decide

/-- C4 (refuting evaluation): on the 2×2 all-black image with
mesh_width = 2, thickness = 1, contrast = 0, every wall triangle's
winding-derived cross product (v1-v0)×(v2-v0) is perpendicular to its
declared fixed normal, never a positive multiple of it; and the two wall
quads of the loop over rows (the true left/right walls) traverse their
corners in the same order rather than reversed. -/
theorem C4_winding_vs_declared_normal :
    (lrWallTriangles img2 2 1 0).map (fun t => (t.normal, normal t.v0 t.v1 t.v2)) =
      [(⟨-1, 0, 0⟩, ⟨0, 1, 0⟩), (⟨-1, 0, 0⟩, ⟨0, 1, 0⟩),
       (⟨1, 0, 0⟩, ⟨0, -1, 0⟩), (⟨1, 0, 0⟩, ⟨0, -1, 0⟩)]
    ∧ (tbWallTriangles img2 2 1 0).map (fun t => (t.normal, normal t.v0 t.v1 t.v2)) =
      [(⟨0, -1, 0⟩, ⟨-1, 0, 0⟩), (⟨0, -1, 0⟩, ⟨-1, 0, 0⟩),
       (⟨0, 1, 0⟩, ⟨-1, 0, 0⟩), (⟨0, 1, 0⟩, ⟨-1, 0, 0⟩)] := by
  constructor
  · with_unfolding_all decide
  · with_unfolding_all decide

/-- C8 (refuting evaluation): on a 1×5 image the program raises no error at
all: image_to_mesh happily returns a degenerate mesh of 18 triangles
(2 back-cap + 16 wall triangles, no front triangles) and the encoder then
writes 84 + 50*18 = 984 bytes of mesh output. -/
theorem C8_small_image_not_rejected :
    (image_to_mesh img15 1 1 0).length = 18
    ∧ (generate_stl_mesh (image_to_mesh img15 1 1 0)).length = 984 := by
  have h : (image_to_mesh img15 1 1 0).length = 18 := by
    with_unfolding_all decide
  refine ⟨h, ?_⟩
  rw [generate_stl_mesh_length, h]

theorem mem_front_vertex (img : Image) (mw mt c : ℚ) {t : Triangle}
    (ht : t ∈ frontTriangles img mw mt c) :
    (∃ x y, t.v0 = get_thickness_vec3 img mw mt c x y) ∧
      (∃ x y, t.v1 = get_thickness_vec3 img mw mt c x y) ∧
      (∃ x y, t.v2 = get_thickness_vec3 img mw mt c x y) := by
  simp only [frontTriangles, List.mem_flatMap, List.mem_range] at ht
  obtain ⟨y, hy, x, hx, hmem⟩ := ht
  simp only [add_quad, List.mem_cons, List.not_mem_nil, or_false] at hmem
  rcases hmem with h | h <;> subst h
  · exact ⟨⟨x, y, rfl⟩, ⟨x + 1, y, rfl⟩, ⟨x + 1, y + 1, rfl⟩⟩
  · exact ⟨⟨x, y, rfl⟩, ⟨x + 1, y + 1, rfl⟩, ⟨x, y + 1, rfl⟩⟩

theorem mem_back_z (img : Image) (mw : ℚ) {t : Triangle}
    (ht : t ∈ backTriangles img mw) :
    t.v0.z = 0 ∧ t.v1.z = 0 ∧ t.v2.z = 0 := by
  simp only [backTriangles, add_quad_with_normal, List.mem_cons,
    List.not_mem_nil, or_false] at ht
  rcases ht with h | h <;> subst h <;> exact ⟨rfl, rfl, rfl⟩

theorem mem_lrWall_vertex (img : Image) (mw mt c : ℚ) {t : Triangle}
    (ht : t ∈ lrWallTriangles img mw mt c) :
    (∃ x y, t.v0 = get_thickness_vec3 img mw mt c x y) ∧
      (t.v1.z = 0 ∨ ∃ x y, t.v1 = get_thickness_vec3 img mw mt c x y) ∧
      t.v2.z = 0 := by
  simp only [lrWallTriangles, List.mem_flatMap, List.mem_range] at ht
  obtain ⟨x, hx, hmem⟩ := ht
  simp only [add_quad_with_normal, List.mem_append, List.mem_cons,
    List.not_mem_nil, or_false] at hmem
  rcases hmem with (h | h) | (h | h) <;> subst h
  · exact ⟨⟨x, 0, rfl⟩, Or.inr ⟨x + 1, 0, rfl⟩, rfl⟩
  · exact ⟨⟨x, 0, rfl⟩, Or.inl rfl, rfl⟩
  · exact ⟨⟨x + 1, img.height - 1, rfl⟩, Or.inr ⟨x, img.height - 1, rfl⟩, rfl⟩
  · exact ⟨⟨x + 1, img.height - 1, rfl⟩, Or.inl rfl, rfl⟩

theorem mem_tbWall_vertex (img : Image) (mw mt c : ℚ) {t : Triangle}
    (ht : t ∈ tbWallTriangles img mw mt c) :
    (∃ x y, t.v0 = get_thickness_vec3 img mw mt c x y) ∧
      (t.v1.z = 0 ∨ ∃ x y, t.v1 = get_thickness_vec3 img mw mt c x y) ∧
      t.v2.z = 0 := by
  simp only [tbWallTriangles, List.mem_flatMap, List.mem_range] at ht
  obtain ⟨y, hy, hmem⟩ := ht
  simp only [add_quad_with_normal, List.mem_append, List.mem_cons,
    List.not_mem_nil, or_false] at hmem
  rcases hmem with (h | h) | (h | h) <;> subst h
  · exact ⟨⟨0, y, rfl⟩, Or.inr ⟨0, y + 1, rfl⟩, rfl⟩
  · exact ⟨⟨0, y, rfl⟩, Or.inl rfl, rfl⟩
  · exact ⟨⟨img.width - 1, y, rfl⟩, Or.inr ⟨img.width - 1, y + 1, rfl⟩, rfl⟩
  · exact ⟨⟨img.width - 1, y, rfl⟩, Or.inl rfl, rfl⟩

/-- C9: for every image with W >= 2 and H >= 2, if 0 <= contrast <= 1 and
thickness >= 0 then every vertex of every triangle of the image_to_mesh
output has z in [0, thickness]; every back-cap vertex has z = 0 exactly,
and in every wall triangle the projected base corners (v2 of both
triangles of a wall quad, and also v1 of the second one — the only
vertices that are not height-field samples) have z = 0 exactly. -/
theorem C9_z_range (img : Image) (mw mt c : ℚ)
    (hW : 2 ≤ img.width) (hH : 2 ≤ img.height)
    (hc0 : 0 ≤ c) (hc1 : c ≤ 1) (ht : 0 ≤ mt) :
    (∀ t ∈ image_to_mesh img mw mt c,
        (0 ≤ t.v0.z ∧ t.v0.z ≤ mt) ∧ (0 ≤ t.v1.z ∧ t.v1.z ≤ mt) ∧
          (0 ≤ t.v2.z ∧ t.v2.z ≤ mt))
    ∧ (∀ t ∈ backTriangles img mw, t.v0.z = 0 ∧ t.v1.z = 0 ∧ t.v2.z = 0)
    ∧ (∀ t ∈ lrWallTriangles img mw mt c ++ tbWallTriangles img mw mt c,
        t.v2.z = 0 ∧
          (t.v1.z = 0 ∨ ∃ x y, t.v1 = get_thickness_vec3 img mw mt c x y)) := by
  have hzb : ∀ x y, 0 ≤ (get_thickness_vec3 img mw mt c x y).z ∧
      (get_thickness_vec3 img mw mt c x y).z ≤ mt :=
    fun x y => get_thickness_z_bound img mw mt c x y hc0 hc1 ht
  have hvert : ∀ v : Vec3,
      (v.z = 0 ∨ ∃ x y, v = get_thickness_vec3 img mw mt c x y) →
        0 ≤ v.z ∧ v.z ≤ mt := by
    rintro v (h | ⟨x, y, rfl⟩)
    · rw [h]; exact ⟨le_refl 0, ht⟩
    · exact hzb x y
  refine ⟨?_, fun t htm => mem_back_z img mw htm, ?_⟩
  · intro t htm
    simp only [image_to_mesh, List.mem_append] at htm
    rcases htm with ((hf | hb) | hlr) | htb
    · obtain ⟨⟨x0, y0, h0⟩, ⟨x1, y1, h1⟩, ⟨x2, y2, h2⟩⟩ :=
        mem_front_vertex img mw mt c hf
      rw [h0, h1, h2]
      exact ⟨hzb x0 y0, hzb x1 y1, hzb x2 y2⟩
    · obtain ⟨h0, h1, h2⟩ := mem_back_z img mw hb
      rw [h0, h1, h2]
      exact ⟨⟨le_refl 0, ht⟩, ⟨le_refl 0, ht⟩, ⟨le_refl 0, ht⟩⟩
    · obtain ⟨⟨x0, y0, h0⟩, h1, h2⟩ := mem_lrWall_vertex img mw mt c hlr
      refine ⟨?_, hvert t.v1 h1, ?_⟩
      · rw [h0]; exact hzb x0 y0
      · rw [h2]; exact ⟨le_refl 0, ht⟩
    · obtain ⟨⟨x0, y0, h0⟩, h1, h2⟩ := mem_tbWall_vertex img mw mt c htb
      refine ⟨?_, hvert t.v1 h1, ?_⟩
      · rw [h0]; exact hzb x0 y0
      · rw [h2]; exact ⟨le_refl 0, ht⟩
  · intro t htm
    rcases List.mem_append.mp htm with h | h
    · obtain ⟨_, h1, h2⟩ := mem_lrWall_vertex img mw mt c h
      exact ⟨h2, h1⟩
    · obtain ⟨_, h1, h2⟩ := mem_tbWall_vertex img mw mt c h
      exact ⟨h2, h1⟩

/-- Witness for C9: the first back-cap triangle of the concrete 2×2 mesh
has all three vertices at z = 0 exactly. -/
theorem C9_z_range_witness :
    ((⟨⟨0, 0, -1⟩, ⟨0, 0, 0⟩, ⟨1, 0, 0⟩, ⟨1, 1, 0⟩⟩ : Triangle) ∈ backTriangles img2 2)
    ∧ ((⟨⟨0, 0, -1⟩, ⟨0, 0, 0⟩, ⟨1, 0, 0⟩, ⟨1, 1, 0⟩⟩ : Triangle).v0.z = 0
        ∧ (⟨⟨0, 0, -1⟩, ⟨0, 0, 0⟩, ⟨1, 0, 0⟩, ⟨1, 1, 0⟩⟩ : Triangle).v1.z = 0
        ∧ (⟨⟨0, 0, -1⟩, ⟨0, 0, 0⟩, ⟨1, 0, 0⟩, ⟨1, 1, 0⟩⟩ : Triangle).v2.z = 0) :=
  ⟨by with_unfolding_all decide,
   (C9_z_range img2 2 1 0 (by decide) (by decide) (by norm_num) (by norm_num)
      (by norm_num)).2.1 _ (by with_unfolding_all decide)⟩

/-- C10: for every image with W >= 2, H >= 2 and positive mesh width, both
back-cap triangles carry the stored normal (0,0,-1) while their
winding-derived cross product (v1-v0)×(v2-v0) is (0,0,maxX*maxY) with
maxX, maxY > 0 — pointing along +z, opposite to the stored normal. -/
theorem C10_back_cap_winding (img : Image) (mw : ℚ)
    (hW : 2 ≤ img.width) (hH : 2 ≤ img.height) (hmw : 0 < mw) :
    0 < pixel_coord_to_mm mw img.width (img.width - 1)
    ∧ 0 < pixel_coord_to_mm mw img.width (img.height - 1)
    ∧ ∀ t ∈ backTriangles img mw,
        t.normal = ⟨0, 0, -1⟩
        ∧ normal t.v0 t.v1 t.v2 =
            ⟨0, 0, pixel_coord_to_mm mw img.width (img.width - 1) *
                pixel_coord_to_mm mw img.width (img.height - 1)⟩ := by
  have hWpos : (0 : ℚ) < (img.width : ℚ) := by
    have h : 0 < img.width := by omega
    exact_mod_cast h
  have hX : (0 : ℚ) < ((img.width - 1 : ℕ) : ℚ) := by
    have h : 0 < img.width - 1 := by omega
    exact_mod_cast h
  have hY : (0 : ℚ) < ((img.height - 1 : ℕ) : ℚ) := by
    have h : 0 < img.height - 1 := by omega
    exact_mod_cast h
  refine ⟨?_, ?_, ?_⟩
  · unfold pixel_coord_to_mm
    exact div_pos (mul_pos hX hmw) hWpos
  · unfold pixel_coord_to_mm
    exact div_pos (mul_pos hY hmw) hWpos
  · intro t htb
    simp only [backTriangles, add_quad_with_normal, List.mem_cons,
      List.not_mem_nil, or_false] at htb
    rcases htb with h | h <;> subst h <;> refine ⟨rfl, ?_⟩ <;>
      simp only [normal, Vec3.mk.injEq] <;>
      exact ⟨by ring, by ring, by ring⟩

/-- Witness for C10 at the concrete 2×2 image with mesh width 2: both
footprint extents are positive. -/
theorem C10_back_cap_winding_witness :
    0 < pixel_coord_to_mm 2 img2.width (img2.width - 1)
    ∧ 0 < pixel_coord_to_mm 2 img2.width (img2.height - 1) :=
  ⟨(C10_back_cap_winding img2 2 (by decide) (by decide) (by norm_num)).1,
   (C10_back_cap_winding img2 2 (by decide) (by decide) (by norm_num)).2.1⟩
